import Mathlib

/-!
Verification development for the ObjectsTracker repository.

The Python sources are shallowly embedded below:

* `src/otsu_method/histogram.py` — `Histogram.get_treshold` together with its
  helper `calc_total_intensity`.  Python integers become `ℕ`/`ℤ`, Python float
  arithmetic on the running means becomes `ℚ` (the behaviour relevant to the
  claims — the exact point where a `ZeroDivisionError` is raised — depends only
  on an integer denominator being zero, not on rounding), and a raised
  `ZeroDivisionError` becomes `Except.error ()`.  The two `while` loops are
  written with explicit fuel; the outer threshold scan advances
  `current_treshold` by at least one per iteration and stops at 255, so fuel
  256 is never exhausted on the reachable states.

* `src/data_generation/data_generator.py` — the per-axis position update with
  bounce handling from `_generate_frame`, the constructor's shape-tuple
  handling, the validation behaviour of `_initialize_objects` (numpy's
  `randint(low, high)` raises `ValueError` iff `low >= high`; nothing else in
  initialization can raise), the sampling interval of the periodically
  injected objects from `generate_frames`, and the `astype(np.uint8)`
  conversion applied to the background-noise samples.

* `src/labeling/ccl.py` — `label_components` and `get_blobs`.  The actual
  component labeling is delegated to `cv2.connectedComponents`, which is not
  part of this repository; it is modelled from the spec (raster scan, flood
  fill of each newly encountered foreground pixel, labels assigned from 1 in
  scan order, 8-connectivity, and a returned label count that includes the
  background label 0, as the repository's own `get_blobs`/`count_blobs`
  require).
-/

/-! ## Otsu threshold selection (`src/otsu_method/histogram.py`) -/

/-- `calc_total_intensity` from `histogram.py`: `Σ i * histogram[i]` over the
256 buckets. -/
def calc_total_intensity (hist : ℕ → ℕ) : ℕ :=
  ((List.range 256).map (fun i => i * hist i)).sum

/-- The inner loop of `get_treshold`:
`while current_treshold < 255 and histogram[current_treshold] == 0:
  current_treshold += 1`. -/
def skip_zeros (hist : ℕ → ℕ) : ℕ → ℕ → ℕ
  | 0, ct => ct
  | fuel + 1, ct =>
    if ct < 255 ∧ hist ct = 0 then skip_zeros hist fuel (ct + 1) else ct

/-- The outer `while current_treshold < 255` loop of `get_treshold`.
State: `ct` = `current_treshold`, `weight_bg`/`weight_fg` (Python ints),
`mean_bg`/`mean_fg` (Python floats, embedded as `ℚ`), `best_var`
(`none` = the initial `float('-inf')`), `result`.  A division whose
denominator is the integer 0 raises `ZeroDivisionError`, embedded as
`Except.error ()`. -/
def otsu_loop (hist : ℕ → ℕ) :
    ℕ → ℕ → ℤ → ℤ → ℚ → ℚ → Option ℚ → ℕ → Except Unit ℕ
  | 0, _, _, _, _, _, _, _ => .error ()
  | fuel + 1, ct, weight_bg, weight_fg, mean_bg, mean_fg, best_var, result =>
    if ct < 255 then
      let diff_means : ℚ := mean_fg - mean_bg
      let variance : ℚ := (weight_bg : ℚ) * (weight_fg : ℚ) * diff_means * diff_means
      let improved : Bool :=
        match best_var with
        | none => true
        | some b => decide (b < variance)
      let best2 : Option ℚ := if improved then some variance else best_var
      let result2 : ℕ := if improved then ct else result
      let ct2 := skip_zeros hist 256 ct
      if 255 ≤ ct2 then .ok result2
      else
        let wb : ℤ := weight_bg + (hist ct2 : ℤ)
        let wf : ℤ := weight_fg - (hist ct2 : ℤ)
        if wb = 0 then .error ()
        else
          let mb : ℚ := (mean_bg * (wb : ℚ) + (hist ct2 : ℚ) * (ct2 : ℚ)) / (wb : ℚ)
          if wf = 0 then .error ()
          else
            let mf : ℚ := (mean_fg * (wf : ℚ) - (hist ct2 : ℚ) * (ct2 : ℚ)) / (wf : ℚ)
            otsu_loop hist fuel (ct2 + 1) wb wf mb mf best2 result2
    else .ok result

/-- `Histogram.get_treshold(histogram, total_intensity, total_pixels)`.
The initial `mean_fg = total_intensity / total_pixels` raises
`ZeroDivisionError` when `total_pixels = 0`; otherwise the scan loop runs
with `weight_fg = self.N = total_pixels`. -/
def get_treshold (hist : ℕ → ℕ) (total_intensity total_pixels : ℕ) :
    Except Unit ℕ :=
  if total_pixels = 0 then .error ()
  else
    otsu_loop hist 256 0 0 (total_pixels : ℤ) 0
      ((total_intensity : ℚ) / (total_pixels : ℚ)) none 0

/-- The bimodal histogram of claim C1 with `N = 1`: one pixel at intensity 30
and one pixel at intensity 200. -/
def bimodal_hist : ℕ → ℕ := fun i => if i = 30 then 1 else if i = 200 then 1 else 0

/-- The single-bucket histogram of claim C4: a 2×2 frame with every pixel at
intensity 30. -/
def single_bucket_hist : ℕ → ℕ := fun i => if i = 30 then 4 else 0

/-! ## Scene generator (`src/data_generation/data_generator.py`) -/

/-- `np.clip(x, lo, hi)` = `np.minimum(hi, np.maximum(x, lo))`. -/
def np_clip (x lo hi : ℤ) : ℤ := min hi (max x lo)

/-- One axis of the position update in `_generate_frame`: add the velocity,
then, if `pos - radius < 0` or `pos + radius >= dimension`, negate the
velocity and clip the position into `[radius, dimension - radius]`.
Returns (new position, new velocity). -/
def update_axis (dimension object_radius pos vel : ℤ) : ℤ × ℤ :=
  let p := pos + vel
  if p - object_radius < 0 ∨ dimension ≤ p + object_radius then
    (np_clip p object_radius (dimension - object_radius), -vel)
  else (p, vel)

/-- The full per-object update of `_generate_frame` (both axes, with
`frame_shape = (frame_h, frame_w)`).  Returns (new position, new velocity). -/
def update_object (frame_h frame_w object_radius : ℤ) (pos vel : ℤ × ℤ) :
    (ℤ × ℤ) × (ℤ × ℤ) :=
  let a := update_axis frame_h object_radius pos.1 vel.1
  let b := update_axis frame_w object_radius pos.2 vel.2
  ((a.1, b.1), (a.2, b.2))

/-- The shape kinds the generator knows. -/
inductive Shape where
  | circle
  | square
  | triangle
  | ellipse
deriving DecidableEq

/-- The constructor line `self.shapes = shapes + ("triangle", "square",
"ellipse")`: the tuple that `np.random.choice` draws from, both in
`_initialize_objects` and in the periodic injection of `generate_frames`. -/
def self_shapes (shapes : List Shape) : List Shape :=
  shapes ++ [Shape.triangle, Shape.square, Shape.ellipse]

/-- The configuration fields of `DataGenerator.__init__` relevant to
initialization. -/
structure DataGeneratorCfg where
  frame_h : ℤ
  frame_w : ℤ
  object_radius : ℤ
  max_objects : ℕ
  vmin : ℤ
  vmax : ℤ

/-- The raise behaviour of `_initialize_objects(num_objects)`.  It runs, in
order, `np.random.randint(r, frame_shape[0] - r, …)`,
`np.random.randint(r, frame_shape[1] - r, …)` and
`np.random.randint(vmin, vmax + 1, …)`; numpy raises `ValueError` iff
`low >= high`, independently of the requested size.  No other statement of
`__init__` or `_initialize_objects` can raise, and no configuration check of
any kind is performed (in particular `num_objects` is never compared with
`max_objects`). -/
def initialize_objects (cfg : DataGeneratorCfg) (num_objects : ℕ) :
    Except Unit Unit :=
  if cfg.object_radius < cfg.frame_h - cfg.object_radius then
    if cfg.object_radius < cfg.frame_w - cfg.object_radius then
      if cfg.vmin < cfg.vmax + 1 then .ok () else .error ()
    else .error ()
  else .error ()

/-- The sampling intervals (inclusive low, exclusive high) of the two
coordinates of a periodically injected object in `generate_frames`:
`new_object = np.random.randint(object_radius, frame_shape[1] -
object_radius, size=2)` — the width bound `frame_shape[1]` is used for both
entries. -/
def new_object_range (frame_h frame_w object_radius : ℤ) :
    (ℤ × ℤ) × (ℤ × ℤ) :=
  ((object_radius, frame_w - object_radius),
   (object_radius, frame_w - object_radius))

/-- Modelled from the spec: the injection position sampling that §4.1
describes, "bounds-checked on both axes" — each coordinate drawn from
`[radius, dimension - radius)` using that axis's own frame dimension. -/
def spec_new_object_range (frame_h frame_w object_radius : ℤ) :
    (ℤ × ℤ) × (ℤ × ℤ) :=
  ((object_radius, frame_h - object_radius),
   (object_radius, frame_w - object_radius))

/-- The `astype(np.uint8)` conversion applied to a (truncated) background
noise sample in `_generate_frame`: reduction modulo 256. -/
def astype_uint8 (s : ℤ) : ℤ := s % 256

/-- Modelled from the spec: the clipping of a noise sample into `[0, 255]`
that §4.1/§7 prescribe (out-of-range samples map to the nearer bound). -/
def spec_clip_noise (s : ℤ) : ℤ := min 255 (max 0 s)

/-! ## Connected component labeling (`src/labeling/ccl.py`) -/

/-- A pixel position: (row, column). -/
abbrev Pixel := ℕ × ℕ

/-- The row-major enumeration of the pixels of an `H × W` grid. -/
def allPixels (H W : ℕ) : List Pixel :=
  (List.range H).flatMap fun i => (List.range W).map fun j => (i, j)

/-- 8-connectivity: two distinct pixels whose coordinates differ by at most
one in each axis (the four orthogonal and four diagonal neighbours). -/
def adj (p q : Pixel) : Prop :=
  p ≠ q ∧ p.1 ≤ q.1 + 1 ∧ q.1 ≤ p.1 + 1 ∧ p.2 ≤ q.2 + 1 ∧ q.2 ≤ p.2 + 1

instance (p q : Pixel) : Decidable (adj p q) := by
  unfold adj
  infer_instance

/-- The foreground pixels of a binary mask over an `H × W` grid, in
row-major order. -/
def fgList (H W : ℕ) (mask : Pixel → Bool) : List Pixel :=
  (allPixels H W).filter mask

/-- One round of flood fill: add to the region `S` every foreground pixel
adjacent to the region. -/
def grow (fg S : List Pixel) : List Pixel :=
  S ++ fg.filter fun q => decide (q ∉ S ∧ ∃ p ∈ S, adj p q)

/-- Modelled from the spec: the flood fill (§4.4) of the connected component
of `p` inside the foreground of the mask, run for `H * W` rounds, which
saturates any component of the grid. -/
def reach (H W : ℕ) (mask : Pixel → Bool) (p : Pixel) : List Pixel :=
  Nat.iterate (grow (fgList H W mask)) (H * W) [p]

/-- One step of the raster scan of §4.4: on first encountering a foreground
pixel that belongs to no component found so far, flood it and append the new
component (thereby assigning it the next label). -/
def scanStep (H W : ℕ) (mask : Pixel → Bool)
    (acc : List (List Pixel)) (p : Pixel) : List (List Pixel) :=
  if mask p = true ∧ ∀ c ∈ acc, p ∉ c then acc ++ [reach H W mask p] else acc

/-- Modelled from the spec: the components of the mask in the order in which
the row-major scan first meets them (§4.4). -/
def comps (H W : ℕ) (mask : Pixel → Bool) : List (List Pixel) :=
  (allPixels H W).foldl (scanStep H W mask) []

/-- The label of a pixel given the scan-ordered component list: components
are numbered from 1, background pixels get 0. -/
def labelOf : List (List Pixel) → Pixel → ℕ
  | [], _ => 0
  | c :: cs, p =>
    if p ∈ c then 1
    else if labelOf cs p = 0 then 0 else labelOf cs p + 1

/-- Modelled from the spec: `cv2.connectedComponents(binary_image,
connectivity=8)` — external library code, specified in §4.4.  Returns
`(num_labels, labels)` where `num_labels` counts the background label 0
together with the component labels `1..K` (the convention the repository's
own `get_blobs` and `count_blobs` rely on). -/
def connectedComponents (H W : ℕ) (mask : Pixel → Bool) :
    ℕ × (Pixel → ℕ) :=
  ((comps H W mask).length + 1, labelOf (comps H W mask))

/-- `ConnectedComponentLabeling.label_components`: stores and returns
`(labels, num_labels)` from `cv2.connectedComponents`. -/
def label_components (H W : ℕ) (mask : Pixel → Bool) :
    (Pixel → ℕ) × ℕ :=
  ((connectedComponents H W mask).2, (connectedComponents H W mask).1)

/-- `ConnectedComponentLabeling.get_blobs`: for each label in
`range(1, num_labels)`, the mask `(labels == label) * 255`. -/
def get_blobs (H W : ℕ) (mask : Pixel → Bool) : List (Pixel → ℕ) :=
  (List.range' 1 ((label_components H W mask).2 - 1)).map fun label => fun p =>
    if (label_components H W mask).1 p = label then 255 else 0

/-- A 5×5 axis-aligned square of foreground pixels with top-left corner
`(a, b)`. -/
def in_square (a b : ℕ) (p : Pixel) : Prop :=
  a ≤ p.1 ∧ p.1 < a + 5 ∧ b ≤ p.2 ∧ p.2 < b + 5

instance (a b : ℕ) (p : Pixel) : Decidable (in_square a b p) := by
  unfold in_square
  infer_instance

/-- The binary mask of claim C3: two 5×5 foreground squares with top-left
corners `(a, b)` and `(c, d)`. -/
def two_square_mask (a b c d : ℕ) : Pixel → Bool := fun p =>
  decide (in_square a b p) || decide (in_square c d p)

/-- Invariant of the raster scan over a mask whose foreground splits into the
two components `P` and `Q`: the accumulated component list is empty, or holds
one of the two components, or holds both (in either order). -/
def twoCompInv (P Q : Pixel → Prop) (acc : List (List Pixel)) : Prop :=
  acc = [] ∨
  (∃ L, acc = [L] ∧ ((∀ x, x ∈ L ↔ P x) ∨ (∀ x, x ∈ L ↔ Q x))) ∨
  (∃ L1 L2, acc = [L1, L2] ∧
    (((∀ x, x ∈ L1 ↔ P x) ∧ (∀ x, x ∈ L2 ↔ Q x)) ∨
     ((∀ x, x ∈ L1 ↔ Q x) ∧ (∀ x, x ∈ L2 ↔ P x))))

/-! ## Theorems for the histogram and generator claims -/

/-- Claim C1: on the bimodal histogram with one pixel at intensity 30 and one
at intensity 200, `get_treshold` does not return a threshold strictly between
30 and 200 — it raises `ZeroDivisionError`: absorbing the last populated
bucket (200) drives `weight_fg` to 0 and the subsequent `mean_fg` update
divides by it. -/
theorem C1_bimodal_zero_division :
    get_treshold bimodal_hist (calc_total_intensity bimodal_hist) 2 = .error () := by
  rfl

/-- Claim C4: threshold selection on degenerate histograms raises
`ZeroDivisionError` instead of returning 0: for an empty frame (`N = 0`) the
initial `total_intensity / total_pixels` divides by zero, and for a frame
whose histogram has a single populated bucket (here all 4 pixels at
intensity 30) the foreground weight reaches 0 when that bucket is absorbed. -/
theorem C4_degenerate_zero_division :
    get_treshold (fun _ => 0) 0 0 = .error () ∧
    get_treshold single_bucket_hist (calc_total_intensity single_bucket_hist) 4 = .error () := by
  exact ⟨rfl, rfl⟩

/-- Claim C2 as stated is false: with `dimension = 20`, `radius = 2`, position
15 and velocity 5 on an axis, the bounce clamps the position to
`dimension - radius = 18`, which is outside `[radius, dimension - radius - 1]
= [2, 17]`. -/
theorem C2_counterexample :
    (update_object 20 20 2 (15, 10) (5, 0)).1 = (18, 10) ∧
    ¬ (update_object 20 20 2 (15, 10) (5, 0)).1.1 ≤ 20 - 2 - 1 := by
  constructor
  · rfl
  · decide

/-- After the update of one axis, the position lies in
`[radius, dimension - radius]` provided `2 * radius ≤ dimension`. -/
lemma update_axis_bounds (dimension object_radius pos vel : ℤ)
    (h : 2 * object_radius ≤ dimension) :
    object_radius ≤ (update_axis dimension object_radius pos vel).1 ∧
    (update_axis dimension object_radius pos vel).1 ≤ dimension - object_radius := by
  unfold update_axis np_clip
  dsimp only
  split
  · constructor
    · simp only [le_min_iff, le_max_iff]
      omega
    · simp only [min_le_iff]
      omega
  · omega

/-- Claim C2, amended: after `step` updates an object's position (including
the bounce handling that negates velocity and clips), the position lies
within `[object_radius, dimension - object_radius]` on both axes — the
clip's upper bound is `dimension - object_radius`, one more than the claim's
`dimension - object_radius - 1` — provided the radius fits the frame
(`2 * object_radius ≤ dimension` on each axis). -/
theorem C2_amended (frame_h frame_w object_radius px py vx vy : ℤ)
    (hh : 2 * object_radius ≤ frame_h) (hw : 2 * object_radius ≤ frame_w) :
    object_radius ≤ (update_object frame_h frame_w object_radius (px, py) (vx, vy)).1.1 ∧
    (update_object frame_h frame_w object_radius (px, py) (vx, vy)).1.1 ≤ frame_h - object_radius ∧
    object_radius ≤ (update_object frame_h frame_w object_radius (px, py) (vx, vy)).1.2 ∧
    (update_object frame_h frame_w object_radius (px, py) (vx, vy)).1.2 ≤ frame_w - object_radius := by
  have h1 := update_axis_bounds frame_h object_radius px vx hh
  have h2 := update_axis_bounds frame_w object_radius py vy hw
  exact ⟨h1.1, h1.2, h2.1, h2.2⟩

/-- Concrete instance of `C2_amended`: the spec's own §8 scenario
(20×20 frame, radius 2, position 15, velocity 5 on the first axis). -/
theorem C2_amended_witness :
    (2 * 2 ≤ (20 : ℤ)) ∧
    ((2 : ℤ) ≤ (update_object 20 20 2 (15, 10) (5, 0)).1.1 ∧
     (update_object 20 20 2 (15, 10) (5, 0)).1.1 ≤ 20 - 2 ∧
     (2 : ℤ) ≤ (update_object 20 20 2 (15, 10) (5, 0)).1.2 ∧
     (update_object 20 20 2 (15, 10) (5, 0)).1.2 ≤ 20 - 2) :=
  ⟨by decide, C2_amended 20 20 2 15 10 5 0 (by decide) (by decide)⟩

/-- Claim C5: the background noise conversion is not clipping.  A truncated
normal sample of value 300 (reachable with `noise_mean = 120`,
`noise_std = 40`) is stored as `300 mod 256 = 44` by `astype(np.uint8)`,
while the spec's clipping maps it to the nearer bound 255. -/
theorem C5_wraparound_not_clip :
    astype_uint8 300 = 44 ∧ spec_clip_noise 300 = 255 ∧
    astype_uint8 300 ≠ spec_clip_noise 300 := by
  refine ⟨rfl, rfl, ?_⟩
  decide

/-- Claim C6 as stated is false: with the default configuration
(600×800 frame, radius 6, `max_objects = 8`, velocities in `[-5, 5]`) and
`initial_count = 9 > max_objects = 8`, initialization succeeds — no
`ConfigurationError` (or any error) is raised. -/
theorem C6_counterexample :
    initialize_objects ⟨600, 800, 6, 8, -5, 5⟩ 9 = .ok () ∧
    8 < 9 ∧ (DataGeneratorCfg.mk 600 800 6 8 (-5) 5).max_objects = 8 :=
  ⟨rfl, by decide, rfl⟩

/-- Claim C6, amended: initialization performs no explicit validation and
defines no `ConfigurationError`; `initial_count > max_objects` is accepted
silently, and the only initialize-time failures are numpy `ValueError`s from
`randint`, raised exactly when `2 * object_radius ≥ frame_h`, or
`2 * object_radius ≥ frame_w` (together: radius ≥ min(H,W)/2), or
`vmin > vmax`.  Those failures do occur at `initialize` time rather than
inside the per-frame stepping. -/
theorem C6_amended (cfg : DataGeneratorCfg) (num_objects : ℕ) :
    initialize_objects cfg num_objects = .error () ↔
      (cfg.frame_h ≤ 2 * cfg.object_radius ∨ cfg.frame_w ≤ 2 * cfg.object_radius ∨
       cfg.vmax < cfg.vmin) := by
  unfold initialize_objects
  split
  · split
    · split
      · exact iff_of_false (fun h => Except.noConfusion h) (by omega)
      · exact iff_of_true rfl (by omega)
    · exact iff_of_true rfl (by omega)
  · exact iff_of_true rfl (by omega)

/-- Claim C8 as stated is false: with the configured shape set `{circle}`,
the tuple actually sampled from is `("circle", "triangle", "square",
"ellipse")`, not `{circle}`. -/
theorem C8_counterexample :
    (self_shapes [Shape.circle]).toFinset ≠ ({Shape.circle} : Finset Shape) := by
  decide

/-- Claim C8, amended: both initialization and periodic injection sample
shapes uniformly over the tuple `configured ++ (triangle, square, ellipse)`,
so the support is the configured set united with `{triangle, square,
ellipse}`; a configured shape that is also one of the three appended ones
occurs twice in the tuple and is drawn with double weight (e.g. configured
set `{triangle}` yields a tuple counting `triangle` twice). -/
theorem C8_amended (shapes : List Shape) :
    (self_shapes shapes).toFinset =
      shapes.toFinset ∪ {Shape.triangle, Shape.square, Shape.ellipse} ∧
    (self_shapes [Shape.triangle]).count Shape.triangle = 2 := by
  constructor
  · rw [self_shapes, List.toFinset_append]
    rfl
  · decide

/-- Claim C9: injected objects are not bounds-checked per axis.  With the
default 600×800 frame and radius 6, both coordinates are sampled from
`[6, 794)` (the width bound), so the draw 700 is possible for the first
coordinate although `700 + 6 > 600` puts the object outside the frame on
axis 0; the spec's per-axis ranges would be `[6, 594)` and `[6, 794)`. -/
theorem C9_one_axis_bound :
    new_object_range 600 800 6 = ((6, 794), (6, 794)) ∧
    spec_new_object_range 600 800 6 = ((6, 594), (6, 794)) ∧
    ((6 : ℤ) ≤ 700 ∧ (700 : ℤ) < 794) ∧ ¬ ((700 : ℤ) + 6 ≤ 600) := by
  refine ⟨rfl, rfl, by decide, by decide⟩

/-! ## Lemmas about the labeling model -/

lemma mem_allPixels {H W : ℕ} {p : Pixel} :
    p ∈ allPixels H W ↔ p.1 < H ∧ p.2 < W := by
  obtain ⟨i, j⟩ := p
  constructor
  · intro h
    simp only [allPixels, List.mem_flatMap, List.mem_map, List.mem_range] at h
    obtain ⟨x, hx, y, hy, hxy⟩ := h
    cases hxy
    exact ⟨hx, hy⟩
  · rintro ⟨h1, h2⟩
    simp only [allPixels, List.mem_flatMap, List.mem_map, List.mem_range]
    exact ⟨i, h1, j, h2, rfl⟩

lemma mem_fgList {H W : ℕ} {mask : Pixel → Bool} {p : Pixel} :
    p ∈ fgList H W mask ↔ p.1 < H ∧ p.2 < W ∧ mask p = true := by
  simp only [fgList, List.mem_filter, mem_allPixels]
  tauto

lemma mem_grow {fg S : List Pixel} {q : Pixel} :
    q ∈ grow fg S ↔ q ∈ S ∨ (q ∈ fg ∧ q ∉ S ∧ ∃ p ∈ S, adj p q) := by
  simp only [grow, List.mem_append, List.mem_filter, decide_eq_true_eq]

lemma subset_grow {fg S : List Pixel} {x : Pixel} (hx : x ∈ S) : x ∈ grow fg S :=
  mem_grow.mpr (Or.inl hx)

lemma mem_iterate_grow {fg S : List Pixel} {x : Pixel} (hx : x ∈ S) :
    ∀ n, x ∈ Nat.iterate (grow fg) n S := by
  intro n
  induction n with
  | zero => simpa using hx
  | succ n ih =>
    rw [Function.iterate_succ_apply']
    exact subset_grow ih

lemma iterate_grow_mono {fg S : List Pixel} {x : Pixel} {m n : ℕ}
    (hmn : m ≤ n) (hx : x ∈ Nat.iterate (grow fg) m S) :
    x ∈ Nat.iterate (grow fg) n S := by
  obtain ⟨k, rfl⟩ := Nat.exists_eq_add_of_le hmn
  rw [Nat.add_comm, Function.iterate_add_apply]
  exact mem_iterate_grow hx k

lemma iterate_grow_closed {fg S : List Pixel} (T : Pixel → Prop)
    (hT : ∀ x q, T x → q ∈ fg → adj x q → T q)
    (hS : ∀ x ∈ S, T x) :
    ∀ n, ∀ x ∈ Nat.iterate (grow fg) n S, T x := by
  intro n
  induction n with
  | zero => simpa using hS
  | succ n ih =>
    rw [Function.iterate_succ_apply']
    intro x hx
    rcases mem_grow.mp hx with h | ⟨hfg, _, p, hp, hadj⟩
    · exact ih x h
    · exact hT p x (ih p hp) hfg hadj

lemma step_iterate_grow {fg S : List Pixel} {x q : Pixel} {n : ℕ}
    (hx : x ∈ Nat.iterate (grow fg) n S) (hq : q ∈ fg) (hadj : adj x q) :
    q ∈ Nat.iterate (grow fg) (n + 1) S := by
  rw [Function.iterate_succ_apply']
  by_cases h : q ∈ Nat.iterate (grow fg) n S
  · exact subset_grow h
  · exact mem_grow.mpr (Or.inr ⟨hq, h, x, hx, hadj⟩)

lemma square_reach {a b : ℕ} {fg : List Pixel}
    (hsq : ∀ x : Pixel, in_square a b x → x ∈ fg) :
    ∀ n : ℕ, ∀ p q : Pixel, in_square a b p → in_square a b q →
      q.1 - p.1 ≤ n → p.1 - q.1 ≤ n → q.2 - p.2 ≤ n → p.2 - q.2 ≤ n →
      q ∈ Nat.iterate (grow fg) n [p] := by
  intro n
  induction n with
  | zero =>
    rintro ⟨p1, p2⟩ ⟨q1, q2⟩ _ _ h1 h2 h3 h4
    have e1 : q1 = p1 := by omega
    have e2 : q2 = p2 := by omega
    subst e1; subst e2
    simp
  | succ n ih =>
    rintro ⟨p1, p2⟩ ⟨q1, q2⟩ hp hq h1 h2 h3 h4
    obtain ⟨hpa, hpb, hpc, hpd⟩ := hp
    obtain ⟨hqa, hqb, hqc, hqd⟩ := hq
    by_cases hpq : q1 = p1 ∧ q2 = p2
    · obtain ⟨e1, e2⟩ := hpq
      subst e1; subst e2
      exact mem_iterate_grow (List.mem_singleton_self _) _
    · have hex : ∃ r1 r2 : ℕ,
          (a ≤ r1 ∧ r1 < a + 5 ∧ b ≤ r2 ∧ r2 < b + 5) ∧
          (r1 - p1 ≤ n ∧ p1 - r1 ≤ n ∧ r2 - p2 ≤ n ∧ p2 - r2 ≤ n) ∧
          (¬ (r1 = q1 ∧ r2 = q2) ∧
            r1 ≤ q1 + 1 ∧ q1 ≤ r1 + 1 ∧ r2 ≤ q2 + 1 ∧ q2 ≤ r2 + 1) := by
        refine ⟨if q1 < p1 then q1 + 1 else if p1 < q1 then q1 - 1 else q1,
                if q2 < p2 then q2 + 1 else if p2 < q2 then q2 - 1 else q2, ?_⟩
        dsimp only at h1 h2 h3 h4 hpa hpb hpc hpd hqa hqb hqc hqd
        split_ifs <;> omega
      obtain ⟨r1, r2, hrsq, hrdist, hrne, ha1, ha2, ha3, ha4⟩ := hex
      have hmem : (r1, r2) ∈ Nat.iterate (grow fg) n [(p1, p2)] :=
        ih (p1, p2) (r1, r2) ⟨hpa, hpb, hpc, hpd⟩
          ⟨hrsq.1, hrsq.2.1, hrsq.2.2.1, hrsq.2.2.2⟩
          hrdist.1 hrdist.2.1 hrdist.2.2.1 hrdist.2.2.2
      apply step_iterate_grow hmem (hsq _ ⟨hqa, hqb, hqc, hqd⟩)
      refine ⟨?_, ha1, ha2, ha3, ha4⟩
      intro hcon
      rw [Prod.mk.injEq] at hcon
      exact hrne ⟨hcon.1, hcon.2⟩

lemma reach_sub_fg {H W : ℕ} {mask : Pixel → Bool} {p : Pixel}
    (hp : p ∈ fgList H W mask) :
    ∀ x ∈ reach H W mask p, x ∈ fgList H W mask := by
  intro x hx
  refine iterate_grow_closed (· ∈ fgList H W mask) (fun _ q _ hq _ => hq)
    ?_ (H * W) x hx
  intro y hy
  cases List.mem_singleton.mp hy
  exact hp

lemma reach_square {H W a b : ℕ} {mask : Pixel → Bool} {Q : Pixel → Prop}
    (hH : a + 5 ≤ H) (hW : b + 5 ≤ W)
    (hfg : ∀ x, x ∈ fgList H W mask ↔ (in_square a b x ∨ Q x))
    (hQadj : ∀ x y, in_square a b x → Q y → ¬ adj x y)
    {p : Pixel} (hp : in_square a b p) :
    ∀ x, x ∈ reach H W mask p ↔ in_square a b x := by
  intro x
  constructor
  · intro hx
    refine iterate_grow_closed (in_square a b) ?_ ?_ (H * W) x hx
    · intro y q hy hqfg hadj
      rcases (hfg q).mp hqfg with h | h
      · exact h
      · exact absurd hadj (hQadj y q hy h)
    · intro y hy
      cases List.mem_singleton.mp hy
      exact hp
  · intro hx
    have h4 : x ∈ Nat.iterate (grow (fgList H W mask)) 4 [p] := by
      obtain ⟨hp1, hp2, hp3, hp4⟩ := hp
      obtain ⟨hx1, hx2, hx3, hx4⟩ := hx
      apply square_reach (fun y hy => (hfg y).mpr (Or.inl hy)) 4 p x
        ⟨hp1, hp2, hp3, hp4⟩ ⟨hx1, hx2, hx3, hx4⟩ <;> omega
    refine iterate_grow_mono ?_ h4
    calc (4 : ℕ) ≤ 5 * 5 := by norm_num
    _ ≤ H * W := Nat.mul_le_mul (by omega) (by omega)

lemma scan_keep {H W : ℕ} {mask : Pixel → Bool} :
    ∀ (l : List Pixel) (acc : List (List Pixel)) (c : List Pixel),
      c ∈ acc → c ∈ l.foldl (scanStep H W mask) acc := by
  intro l
  induction l with
  | nil => intro acc c hc; simpa using hc
  | cons p l ih =>
    intro acc c hc
    rw [List.foldl_cons]
    apply ih
    unfold scanStep
    split
    · exact List.mem_append_left _ hc
    · exact hc

lemma scan_cover {H W : ℕ} {mask : Pixel → Bool} :
    ∀ (l : List Pixel) (acc : List (List Pixel)) (p : Pixel),
      p ∈ l → mask p = true →
      ∃ c ∈ l.foldl (scanStep H W mask) acc, p ∈ c := by
  intro l
  induction l with
  | nil => intro acc p hp; exact absurd hp (List.not_mem_nil p)
  | cons q l ih =>
    intro acc p hp hmask
    rw [List.foldl_cons]
    rcases List.mem_cons.mp hp with rfl | hp'
    · by_cases hcond : mask p = true ∧ ∀ c ∈ acc, p ∉ c
      · refine ⟨reach H W mask p, ?_, ?_⟩
        · apply scan_keep
          unfold scanStep
          rw [if_pos hcond]
          exact List.mem_append_right _ (List.mem_singleton_self _)
        · exact mem_iterate_grow (List.mem_singleton_self _) _
      · push_neg at hcond
        obtain ⟨c, hc, hpc⟩ := hcond hmask
        refine ⟨c, scan_keep l _ c ?_, hpc⟩
        unfold scanStep
        split
        · exact List.mem_append_left _ hc
        · exact hc
    · exact ih _ p hp' hmask

lemma scan_two_inv {H W : ℕ} {mask : Pixel → Bool} {P Q : Pixel → Prop}
    (hchar : ∀ p : Pixel, p.1 < H → p.2 < W → mask p = true → P p ∨ Q p)
    (hreachP : ∀ p, P p → ∀ x, x ∈ reach H W mask p ↔ P x)
    (hreachQ : ∀ p, Q p → ∀ x, x ∈ reach H W mask p ↔ Q x) :
    ∀ (l : List Pixel) (acc : List (List Pixel)),
      (∀ p ∈ l, p.1 < H ∧ p.2 < W) → twoCompInv P Q acc →
      twoCompInv P Q (l.foldl (scanStep H W mask) acc) := by
  intro l
  induction l with
  | nil => intro acc _ h; simpa using h
  | cons p l ih =>
    intro acc hgrid hinv
    rw [List.foldl_cons]
    refine ih _ (fun q hq => hgrid q (List.mem_cons_of_mem _ hq)) ?_
    unfold scanStep
    split
    case isTrue hcond =>
      obtain ⟨hmaskp, hnew⟩ := hcond
      have hgp := hgrid p (List.mem_cons_self _ _)
      have hPQ := hchar p hgp.1 hgp.2 hmaskp
      rcases hinv with rfl | ⟨L, rfl, hL⟩ | ⟨L1, L2, rfl, hL⟩
      · refine Or.inr (Or.inl ⟨reach H W mask p, rfl, ?_⟩)
        rcases hPQ with hP | hQ
        · exact Or.inl (hreachP p hP)
        · exact Or.inr (hreachQ p hQ)
      · refine Or.inr (Or.inr ⟨L, reach H W mask p, rfl, ?_⟩)
        have hpL : p ∉ L := hnew L (List.mem_singleton_self _)
        rcases hL with hLP | hLQ
        · rcases hPQ with hP | hQ
          · exact absurd ((hLP p).mpr hP) hpL
          · exact Or.inl ⟨hLP, hreachQ p hQ⟩
        · rcases hPQ with hP | hQ
          · exact Or.inr ⟨hLQ, hreachP p hP⟩
          · exact absurd ((hLQ p).mpr hQ) hpL
      · exfalso
        have hL1 : L1 ∈ [L1, L2] := List.mem_cons_self _ _
        have hL2 : L2 ∈ [L1, L2] := List.mem_cons_of_mem _ (List.mem_singleton_self _)
        rcases hL with ⟨h1, h2⟩ | ⟨h1, h2⟩ <;> rcases hPQ with hP | hQ
        · exact hnew L1 hL1 ((h1 p).mpr hP)
        · exact hnew L2 hL2 ((h2 p).mpr hQ)
        · exact hnew L2 hL2 ((h2 p).mpr hP)
        · exact hnew L1 hL1 ((h1 p).mpr hQ)
    case isFalse => exact hinv

lemma labelOf_pos_iff {cs : List (List Pixel)} {p : Pixel} :
    labelOf cs p ≠ 0 ↔ ∃ c ∈ cs, p ∈ c := by
  induction cs with
  | nil => simp [labelOf]
  | cons c cs ih =>
    simp only [labelOf]
    split_ifs with hp hk
    · exact iff_of_true one_ne_zero ⟨c, List.mem_cons_self _ _, hp⟩
    · refine iff_of_false (by simp) ?_
      rintro ⟨c', hc', hpc'⟩
      rcases List.mem_cons.mp hc' with rfl | hc'
      · exact hp hpc'
      · exact (ih.mpr ⟨c', hc', hpc'⟩) hk
    · refine iff_of_true (by omega) ?_
      obtain ⟨c', hc', hpc'⟩ := ih.mp hk
      exact ⟨c', List.mem_cons_of_mem _ hc', hpc'⟩

lemma labelOf_le_length {cs : List (List Pixel)} {p : Pixel} :
    labelOf cs p ≤ cs.length := by
  induction cs with
  | nil => simp [labelOf]
  | cons c cs ih =>
    simp only [labelOf, List.length_cons]
    split_ifs <;> omega

lemma labelOf_pair_left {L1 L2 : List Pixel} {p : Pixel} (hp : p ∈ L1) :
    labelOf [L1, L2] p = 1 := by
  simp [labelOf, hp]

lemma labelOf_pair_right {L1 L2 : List Pixel} {p : Pixel}
    (hp1 : p ∉ L1) (hp2 : p ∈ L2) : labelOf [L1, L2] p = 2 := by
  simp [labelOf, hp1, hp2]

lemma comps_sub_fg {H W : ℕ} {mask : Pixel → Bool} :
    ∀ e ∈ comps H W mask, ∀ x ∈ e, x ∈ fgList H W mask := by
  have main : ∀ (l : List Pixel) (acc : List (List Pixel)),
      (∀ p ∈ l, p ∈ allPixels H W) →
      (∀ e ∈ acc, ∀ x ∈ e, x ∈ fgList H W mask) →
      ∀ e ∈ l.foldl (scanStep H W mask) acc, ∀ x ∈ e, x ∈ fgList H W mask := by
    intro l
    induction l with
    | nil => intro acc _ hacc; simpa using hacc
    | cons p l ih =>
      intro acc hl hacc
      rw [List.foldl_cons]
      apply ih _ (fun q hq => hl q (List.mem_cons_of_mem _ hq))
      unfold scanStep
      split
      case isTrue hcond =>
        intro e he
        rcases List.mem_append.mp he with he | he
        · exact hacc e he
        · cases List.mem_singleton.mp he
          apply reach_sub_fg
          have hp := mem_allPixels.mp (hl p (List.mem_cons_self _ _))
          exact mem_fgList.mpr ⟨hp.1, hp.2, hcond.1⟩
      case isFalse => exact hacc
  intro e he
  unfold comps at he
  exact main (allPixels H W) [] (fun p hp => hp) (by simp) e he

lemma comps_cover {H W : ℕ} {mask : Pixel → Bool} {p : Pixel}
    (h1 : p.1 < H) (h2 : p.2 < W) (hm : mask p = true) :
    ∃ e ∈ comps H W mask, p ∈ e := by
  unfold comps
  exact scan_cover (allPixels H W) [] p (mem_allPixels.mpr ⟨h1, h2⟩) hm

lemma two_squares_spec (H W a b c d : ℕ)
    (ha : a + 5 ≤ H) (hb : b + 5 ≤ W) (hc : c + 5 ≤ H) (hd : d + 5 ≤ W)
    (hsep : a + 6 ≤ c ∨ c + 6 ≤ a ∨ b + 6 ≤ d ∨ d + 6 ≤ b) :
    (label_components H W (two_square_mask a b c d)).2 = 3 ∧
    (∀ p q : Pixel, in_square a b p → in_square a b q →
      (label_components H W (two_square_mask a b c d)).1 p =
        (label_components H W (two_square_mask a b c d)).1 q) ∧
    (∀ p q : Pixel, in_square c d p → in_square c d q →
      (label_components H W (two_square_mask a b c d)).1 p =
        (label_components H W (two_square_mask a b c d)).1 q) ∧
    (∀ p q : Pixel, in_square a b p → in_square c d q →
      (label_components H W (two_square_mask a b c d)).1 p ≠
        (label_components H W (two_square_mask a b c d)).1 q) ∧
    (∀ p : Pixel, in_square a b p ∨ in_square c d p →
      (label_components H W (two_square_mask a b c d)).1 p ≠ 0) := by
  have hmt : ∀ p : Pixel, two_square_mask a b c d p = true ↔
      in_square a b p ∨ in_square c d p := by
    intro p
    simp [two_square_mask]
  have hdisj : ∀ x : Pixel, in_square a b x → in_square c d x → False := by
    rintro ⟨x1, x2⟩ ⟨h1, h2, h3, h4⟩ ⟨h5, h6, h7, h8⟩
    dsimp only at *
    omega
  have hsq1adj : ∀ x y : Pixel, in_square a b x → in_square c d y → ¬ adj x y := by
    rintro ⟨x1, x2⟩ ⟨y1, y2⟩ ⟨h1, h2, h3, h4⟩ ⟨h5, h6, h7, h8⟩ ⟨_, g1, g2, g3, g4⟩
    dsimp only at *
    omega
  have hsq2adj : ∀ x y : Pixel, in_square c d x → in_square a b y → ¬ adj x y := by
    rintro ⟨x1, x2⟩ ⟨y1, y2⟩ ⟨h1, h2, h3, h4⟩ ⟨h5, h6, h7, h8⟩ ⟨_, g1, g2, g3, g4⟩
    dsimp only at *
    omega
  have hfg : ∀ x : Pixel, x ∈ fgList H W (two_square_mask a b c d) ↔
      (in_square a b x ∨ in_square c d x) := by
    intro x
    rw [mem_fgList]
    constructor
    · rintro ⟨-, -, hm⟩
      exact (hmt x).mp hm
    · intro h
      refine ⟨?_, ?_, (hmt x).mpr h⟩ <;>
        (rcases h with h | h <;> (obtain ⟨e1, e2, e3, e4⟩ := h; omega))
  have hfg2 : ∀ x : Pixel, x ∈ fgList H W (two_square_mask a b c d) ↔
      (in_square c d x ∨ in_square a b x) := by
    intro x
    rw [hfg x, or_comm]
  have hreach1 : ∀ p, in_square a b p → ∀ x,
      x ∈ reach H W (two_square_mask a b c d) p ↔ in_square a b x :=
    fun p hp => reach_square ha hb hfg hsq1adj hp
  have hreach2 : ∀ p, in_square c d p → ∀ x,
      x ∈ reach H W (two_square_mask a b c d) p ↔ in_square c d x :=
    fun p hp => reach_square hc hd hfg2 hsq2adj hp
  have hinv : twoCompInv (in_square a b) (in_square c d)
      (comps H W (two_square_mask a b c d)) := by
    unfold comps
    exact scan_two_inv (fun p _ _ hm => (hmt p).mp hm) hreach1 hreach2
      (allPixels H W) [] (fun p hp => mem_allPixels.mp hp) (Or.inl rfl)
  have hsq_ab : in_square a b (a, b) := by
    simp only [in_square]
    omega
  have hsq_cd : in_square c d (c, d) := by
    simp only [in_square]
    omega
  have hcov1 : ∃ e ∈ comps H W (two_square_mask a b c d), (a, b) ∈ e :=
    comps_cover (by omega) (by omega) ((hmt _).mpr (Or.inl hsq_ab))
  have hcov2 : ∃ e ∈ comps H W (two_square_mask a b c d), (c, d) ∈ e :=
    comps_cover (by omega) (by omega) ((hmt _).mpr (Or.inr hsq_cd))
  have hnot1 : ¬ in_square a b (c, d) := fun h => hdisj _ h hsq_cd
  have hnot2 : ¬ in_square c d (a, b) := fun h => hdisj _ hsq_ab h
  rcases hinv with hnil | ⟨L, heq, hL⟩ | ⟨L1, L2, heq, hL⟩
  · obtain ⟨e, he, -⟩ := hcov1
    rw [hnil] at he
    exact absurd he (List.not_mem_nil e)
  · exfalso
    obtain ⟨e1, he1, hmem1⟩ := hcov1
    obtain ⟨e2, he2, hmem2⟩ := hcov2
    rw [heq, List.mem_singleton] at he1 he2
    subst he1
    subst he2
    rcases hL with hLP | hLQ
    · exact hnot1 ((hLP (c, d)).mp hmem2)
    · exact hnot2 ((hLQ (a, b)).mp hmem1)
  · have hcount : (label_components H W (two_square_mask a b c d)).2 = 3 := by
      simp [label_components, connectedComponents, heq]
    have hlab : (label_components H W (two_square_mask a b c d)).1 =
        labelOf (comps H W (two_square_mask a b c d)) := rfl
    rcases hL with ⟨h1, h2⟩ | ⟨h1, h2⟩
    · have lab1 : ∀ p : Pixel, in_square a b p →
          (label_components H W (two_square_mask a b c d)).1 p = 1 := by
        intro p hp
        rw [hlab, heq]
        exact labelOf_pair_left ((h1 p).mpr hp)
      have lab2 : ∀ p : Pixel, in_square c d p →
          (label_components H W (two_square_mask a b c d)).1 p = 2 := by
        intro p hp
        rw [hlab, heq]
        exact labelOf_pair_right (fun hm => hdisj p ((h1 p).mp hm) hp) ((h2 p).mpr hp)
      refine ⟨hcount, ?_, ?_, ?_, ?_⟩
      · intro p q hp hq
        rw [lab1 p hp, lab1 q hq]
      · intro p q hp hq
        rw [lab2 p hp, lab2 q hq]
      · intro p q hp hq
        rw [lab1 p hp, lab2 q hq]
        omega
      · intro p hp
        rcases hp with hp | hp
        · rw [lab1 p hp]; omega
        · rw [lab2 p hp]; omega
    · have lab1 : ∀ p : Pixel, in_square a b p →
          (label_components H W (two_square_mask a b c d)).1 p = 2 := by
        intro p hp
        rw [hlab, heq]
        exact labelOf_pair_right (fun hm => hdisj p hp ((h1 p).mp hm)) ((h2 p).mpr hp)
      have lab2 : ∀ p : Pixel, in_square c d p →
          (label_components H W (two_square_mask a b c d)).1 p = 1 := by
        intro p hp
        rw [hlab, heq]
        exact labelOf_pair_left ((h1 p).mpr hp)
      refine ⟨hcount, ?_, ?_, ?_, ?_⟩
      · intro p q hp hq
        rw [lab1 p hp, lab1 q hq]
      · intro p q hp hq
        rw [lab2 p hp, lab2 q hq]
      · intro p q hp hq
        rw [lab1 p hp, lab2 q hq]
        omega
      · intro p hp
        rcases hp with hp | hp
        · rw [lab1 p hp]; omega
        · rw [lab2 p hp]; omega

/-- Claim C3 as stated is false on one count: for the concrete mask holding
two 5×5 squares at `(0,0)` and `(0,7)` in a 5×12 grid, `label_components`
returns `num_labels = 3` (background label 0 plus the two component labels,
the `cv2.connectedComponents` convention), not 2. -/
theorem C3_counterexample :
    (label_components 5 12 (two_square_mask 0 0 0 7)).2 ≠ 2 := by
  have h := (two_squares_spec 5 12 0 0 0 7 (by omega) (by omega) (by omega)
    (by omega) (by omega)).1
  omega

/-- Claim C3, amended: for every mask holding exactly two 5×5 foreground
squares separated by background (no pixel of one square is 8-adjacent to the
other), `label_components` returns count 3 — one background label plus the
two component labels, as the returned `cv2.connectedComponents` count
includes label 0 — while all pixels within one square share a (non-zero)
label and pixels in different squares carry different labels. -/
theorem C3_amended (H W a b c d : ℕ)
    (ha : a + 5 ≤ H) (hb : b + 5 ≤ W) (hc : c + 5 ≤ H) (hd : d + 5 ≤ W)
    (hsep : a + 6 ≤ c ∨ c + 6 ≤ a ∨ b + 6 ≤ d ∨ d + 6 ≤ b) :
    (label_components H W (two_square_mask a b c d)).2 = 3 ∧
    (∀ p q : Pixel, in_square a b p → in_square a b q →
      (label_components H W (two_square_mask a b c d)).1 p =
        (label_components H W (two_square_mask a b c d)).1 q) ∧
    (∀ p q : Pixel, in_square c d p → in_square c d q →
      (label_components H W (two_square_mask a b c d)).1 p =
        (label_components H W (two_square_mask a b c d)).1 q) ∧
    (∀ p q : Pixel, in_square a b p → in_square c d q →
      (label_components H W (two_square_mask a b c d)).1 p ≠
        (label_components H W (two_square_mask a b c d)).1 q) ∧
    (∀ p : Pixel, in_square a b p ∨ in_square c d p →
      (label_components H W (two_square_mask a b c d)).1 p ≠ 0) :=
  two_squares_spec H W a b c d ha hb hc hd hsep

/-- Concrete instance of `C3_amended`: squares at `(0,0)` and `(0,7)` in a
5×12 grid. -/
theorem C3_amended_witness :
    (label_components 5 12 (two_square_mask 0 0 0 7)).2 = 3 ∧
    (label_components 5 12 (two_square_mask 0 0 0 7)).1 (0, 0) =
      (label_components 5 12 (two_square_mask 0 0 0 7)).1 (4, 4) ∧
    (label_components 5 12 (two_square_mask 0 0 0 7)).1 (0, 7) =
      (label_components 5 12 (two_square_mask 0 0 0 7)).1 (4, 11) ∧
    (label_components 5 12 (two_square_mask 0 0 0 7)).1 (0, 0) ≠
      (label_components 5 12 (two_square_mask 0 0 0 7)).1 (0, 7) ∧
    (label_components 5 12 (two_square_mask 0 0 0 7)).1 (0, 0) ≠ 0 := by
  have h := C3_amended 5 12 0 0 0 7 (by omega) (by omega) (by omega) (by omega)
    (by omega)
  refine ⟨h.1, h.2.1 (0, 0) (4, 4) ?_ ?_, h.2.2.1 (0, 7) (4, 11) ?_ ?_,
    h.2.2.2.1 (0, 0) (0, 7) ?_ ?_, h.2.2.2.2 (0, 0) (Or.inl ?_)⟩ <;>
    (simp only [in_square]; omega)

/-- Claim C7: the union of the foreground pixel sets of the blob masks
returned by `get_blobs` is exactly the set of pixels with a non-zero label,
which over the grid is exactly the foreground of the input mask. -/
theorem C7_blob_union (H W : ℕ) (mask : Pixel → Bool) :
    ((allPixels H W).filter fun p =>
        decide (∃ blob ∈ get_blobs H W mask, blob p ≠ 0)) =
      (allPixels H W).filter mask ∧
    ∀ p : Pixel, (∃ blob ∈ get_blobs H W mask, blob p ≠ 0) ↔
      (label_components H W mask).1 p ≠ 0 := by
  have hlen : (label_components H W mask).2 - 1 = (comps H W mask).length := by
    simp [label_components, connectedComponents]
  have hlab : (label_components H W mask).1 = labelOf (comps H W mask) := rfl
  have key : ∀ p : Pixel, (∃ blob ∈ get_blobs H W mask, blob p ≠ 0) ↔
      (label_components H W mask).1 p ≠ 0 := by
    intro p
    unfold get_blobs
    rw [hlen]
    constructor
    · rintro ⟨blob, hblob, hval⟩
      obtain ⟨k, hk, rfl⟩ := List.mem_map.mp hblob
      by_cases h : (label_components H W mask).1 p = k
      · rw [List.mem_range'_1] at hk
        omega
      · dsimp only at hval
        rw [if_neg h] at hval
        exact absurd rfl hval
    · intro h
      refine ⟨_, List.mem_map.mpr ⟨(label_components H W mask).1 p, ?_, rfl⟩, ?_⟩
      · rw [List.mem_range'_1]
        have hle : labelOf (comps H W mask) p ≤ (comps H W mask).length :=
          labelOf_le_length
        rw [hlab] at h ⊢
        omega
      · rw [if_pos rfl]
        omega
  refine ⟨?_, key⟩
  apply List.filter_congr
  intro p hp
  have hgrid := mem_allPixels.mp hp
  cases hmask : mask p
  · refine decide_eq_false fun hcon => ?_
    have h := (key p).mp hcon
    rw [hlab] at h
    obtain ⟨e, he, hpe⟩ := labelOf_pos_iff.mp h
    have := (mem_fgList.mp (comps_sub_fg e he p hpe)).2.2
    rw [hmask] at this
    exact Bool.false_ne_true this
  · refine decide_eq_true ((key p).mpr ?_)
    rw [hlab]
    exact labelOf_pos_iff.mpr (comps_cover hgrid.1 hgrid.2 hmask)

/-- Claim C10: the blob masks returned by `get_blobs` are pairwise disjoint —
no pixel is foreground (non-zero) in two different returned masks, since each
mask is the preimage of a distinct label. -/
theorem C10_blobs_disjoint (H W : ℕ) (mask : Pixel → Bool) :
    (get_blobs H W mask).Pairwise fun b1 b2 => ∀ p : Pixel, b1 p = 0 ∨ b2 p = 0 := by
  unfold get_blobs
  rw [List.pairwise_map]
  refine List.Pairwise.imp ?_ (List.pairwise_lt_range' _ _)
  intro k1 k2 hlt p
  by_cases h : (label_components H W mask).1 p = k1
  · right
    dsimp only
    rw [h, if_neg (Nat.ne_of_lt hlt)]
  · left
    dsimp only
    rw [if_neg h]
